/-
Verification of the realtime-spinwheel wheel orchestration engine.

This file embeds the two backend implementations of the repository:
  * the SQL-backed engine (backend/src/index.js): wheel creation, the join
    operation with fee split into three pools, refund on abort, the timed
    elimination loop and winner finalization;
  * the prisma-backed game service (gameService): commit-reveal wheel
    creation, the deterministic weighted draw, and the single-draw payout.

Machine integers of the source are modelled as Nat / Int (coin amounts are
Int, fees and counts Nat).  Database tables are lists of records; each SQL
statement is translated to the corresponding list transformation.  External
cryptographic primitives (sha256, HMAC) are parameters of the definitions
that use them, since their implementations are not part of this repository.
-/
import Mathlib

set_option linter.unusedVariables false

/-! ## Data model of the SQL backend (backend/src/index.js) -/

/-- Wheel lifecycle status (column `status` of `spin_wheels`). -/
inductive WStatus where
  | pending
  | active
  | finished
  | aborted
deriving DecidableEq, Repr, BEq

/-- Fee split percentages from the `config` table
(`fee_split_winner_pct` and friends, defaults 70/20/10). -/
structure SplitCfg where
  winner_pct : Nat
  admin_pct : Nat
  app_pct : Nat
deriving DecidableEq, Repr

/-- Defaults used by `getConfigSplit` when the config rows are absent. -/
def defaultSplit : SplitCfg := { winner_pct := 70, admin_pct := 20, app_pct := 10 }

/-- A row of the `users` table. -/
structure User where
  id : Nat
  username : String
  coins : Int
  is_admin : Bool
deriving DecidableEq, Repr

/-- A row of the `spin_wheels` table (timestamps are not modelled). -/
structure Wheel where
  id : Nat
  owner_id : Nat
  entry_fee : Nat
  min_participants : Nat
  status : WStatus
  winner_pool : Int
  admin_pool : Int
  app_pool : Int
deriving DecidableEq, Repr

/-- A row of the `spin_participants` table.  `eliminated` models
`eliminated_at IS NOT NULL`. -/
structure Participant where
  id : Nat
  wheel_id : Nat
  user_id : Nat
  eliminated : Bool
  eliminated_order : Option Nat
deriving DecidableEq, Repr

/-- A row of the `transactions` table; the JSON `meta` column is flattened
into its three used fields (`wheel`, `reason`, `role`). -/
structure Txn where
  user_id : Nat
  amount : Int
  kind : String
  meta_wheel : Nat
  meta_reason : Option String
  meta_role : Option String
deriving DecidableEq, Repr

/-- Database state for one wheel: the `users`, `spin_participants` and
`transactions` tables plus the single `spin_wheels` row the handlers
operate on. -/
structure Db where
  users : List User
  wheel : Wheel
  participants : List Participant
  transactions : List Txn
deriving DecidableEq, Repr

/-! ## Fee split (join handler, index.js lines 104-113) -/

/-- `winnerAmt = Math.floor(wheel.entry_fee * splits.winner_pct/100)`. -/
def winnerAmt (fee : Nat) (cfg : SplitCfg) : Nat := fee * cfg.winner_pct / 100

/-- `adminAmt = Math.floor(wheel.entry_fee * splits.admin_pct/100)`. -/
def adminAmt (fee : Nat) (cfg : SplitCfg) : Nat := fee * cfg.admin_pct / 100

/-- `appAmt = Number(wheel.entry_fee) - winnerAmt - adminAmt` (plain JS
subtraction, so the result may be negative for extreme configs). -/
def appAmt (fee : Nat) (cfg : SplitCfg) : Int :=
  (fee : Int) - (winnerAmt fee cfg : Int) - (adminAmt fee cfg : Int)

/-- `UPDATE users SET coins=$1 WHERE id=$2` (absolute value, as the handler
computes `newCoins` from the selected row and writes it back). -/
def setCoins (us : List User) (uid : Nat) (v : Int) : List User :=
  us.map (fun u => if u.id = uid then { u with coins := v } else u)

/-- `UPDATE users SET coins = coins + $1 WHERE id=$2`. -/
def creditUser (us : List User) (uid : Nat) (amt : Int) : List User :=
  us.map (fun u => if u.id = uid then { u with coins := u.coins + amt } else u)

/-- The join handler, `app.post(/api/wheels/:id/join)` (index.js lines
84-125): lock the wheel row and check its status, lock the user row, check
the balance, debit, record the debit transaction, split the fee into the
three pool accumulators and insert the participant row.  Note the handler
performs no check that the user already joined. -/
def joinWheel (cfg : SplitCfg) (db : Db) (user_id : Nat) : Except String Db :=
  if db.wheel.status ≠ WStatus.pending then .error "wheel not joinable"
  else
    match db.users.find? (fun u => u.id == user_id) with
    | none => .error "user not found"
    | some user =>
      if user.coins < (db.wheel.entry_fee : Int) then .error "insufficient coins"
      else
        let fee := db.wheel.entry_fee
        let newCoins := user.coins - (fee : Int)
        .ok { db with
          users := setCoins db.users user_id newCoins,
          transactions := db.transactions ++
            [{ user_id := user_id, amount := -(fee : Int), kind := "debit",
               meta_wheel := db.wheel.id, meta_reason := none, meta_role := none }],
          wheel := { db.wheel with
            winner_pool := db.wheel.winner_pool + (winnerAmt fee cfg : Int),
            admin_pool := db.wheel.admin_pool + (adminAmt fee cfg : Int),
            app_pool := db.wheel.app_pool + appAmt fee cfg },
          participants := db.participants ++
            [{ id := db.participants.length, wheel_id := db.wheel.id,
               user_id := user_id, eliminated := false, eliminated_order := none }] }

/-- Run a sequence of join requests; a failed request rolls back and leaves
the database unchanged. -/
def runJoins (cfg : SplitCfg) (db : Db) (reqs : List Nat) : Db :=
  reqs.foldl (fun d u => match joinWheel cfg d u with | .ok d2 => d2 | .error _ => d) db

/-- Sum of the three pool accumulators of a wheel row. -/
def poolSum (w : Wheel) : Int := w.winner_pool + w.admin_pool + w.app_pool

/-! ## Refund, finalization, auto-start, elimination (index.js lines 154-268) -/

/-- One iteration of the refund loop (index.js lines 182-188): re-read the
wheel entry fee, credit it back to the participant and insert the credit
transaction tagged with the abort reason. -/
def refundStep (wid : Nat) (reason : String) (d : Db) (p : Participant) : Db :=
  let fee := d.wheel.entry_fee
  { d with
    users := creditUser d.users p.user_id (fee : Int),
    transactions := d.transactions ++
      [{ user_id := p.user_id, amount := (fee : Int), kind := "credit",
         meta_wheel := wid, meta_reason := some reason, meta_role := none }] }

/-- `refundWheel` (index.js lines 177-192): credit every participant of the
wheel the entry fee, then mark the wheel `aborted`. -/
def refundWheel (db : Db) (reason : String) : Db :=
  let db1 := db.participants.foldl (refundStep db.wheel.id reason) db
  { db1 with wheel := { db1.wheel with status := WStatus.aborted } }

/-- `finalizeWinner` (index.js lines 246-268): read the pools and the owner
from the locked wheel row, credit `winner_pool` to the winner and
`admin_pool` to the owner (each only when positive, each with a credit
transaction), then mark the wheel `finished`.  The pool columns themselves
are left untouched. -/
def finalizeWinner (db : Db) (winnerUserId : Nat) : Db :=
  let wp := db.wheel.winner_pool
  let ap := db.wheel.admin_pool
  let owner := db.wheel.owner_id
  let db1 :=
    if 0 < wp then
      { db with
        users := creditUser db.users winnerUserId wp,
        transactions := db.transactions ++
          [{ user_id := winnerUserId, amount := wp, kind := "credit",
             meta_wheel := db.wheel.id, meta_reason := none, meta_role := some "winner" }] }
    else db
  let db2 :=
    if 0 < ap then
      { db1 with
        users := creditUser db1.users owner ap,
        transactions := db1.transactions ++
          [{ user_id := owner, amount := ap, kind := "credit",
             meta_wheel := db.wheel.id, meta_reason := none, meta_role := some "admin" }] }
    else db1
  { db2 with wheel := { db2.wheel with status := WStatus.finished } }

/-- `autoStartWheel` (index.js lines 154-172): the deadline timer callback.
It returns immediately unless the wheel is still `pending`; with too few
participants it aborts and refunds, otherwise it marks the wheel `active`
(the elimination loop itself is modelled by `runElimination`). -/
def autoStartWheel (db : Db) : Db :=
  if db.wheel.status ≠ WStatus.pending then db
  else if db.participants.length < db.wheel.min_participants then
    refundWheel db "not_enough_participants"
  else { db with wheel := { db.wheel with status := WStatus.active } }

/-- Participants of the wheel with `eliminated_at IS NULL`. -/
def activeParts (db : Db) : List Participant :=
  db.participants.filter (fun p => !p.eliminated)

/-- The scan inside `eliminateOne` (index.js lines 220-225): advance through
the shuffled snapshot until a candidate that is still active is found,
returning it together with the unconsumed remainder of the snapshot. -/
def scanNext (db : Db) : List Participant → Option (Participant × List Participant)
  | [] => none
  | c :: cs =>
    if db.participants.any (fun p => p.id == c.id && !p.eliminated) then some (c, cs)
    else scanNext db cs

/-- One elimination tick, `eliminateOne` (index.js lines 205-241).  The tick
re-queries the active participants; with at most one left it finalizes
(winner or bare finish) and stops.  Otherwise it picks the next candidate
from the shuffled snapshot (falling back to the first active row), and marks
it eliminated with `eliminated_order = (SELECT COUNT(*) FROM
spin_participants WHERE wheel_id=$1)` — the count of ALL participant rows of
the wheel, not of the eliminated ones.  Note the tick performs no check of
the wheel status.  Returns the new state, the remaining snapshot and whether
a next tick is scheduled. -/
def eliminateOne (db : Db) (order : List Participant) : Db × List Participant × Bool :=
  let active := activeParts db
  if active.length ≤ 1 then
    match active with
    | [p] => (finalizeWinner db p.user_id, order, false)
    | _ => ({ db with wheel := { db.wheel with status := WStatus.finished } }, order, false)
  else
    let pick :=
      match scanNext db order with
      | some (c, cs) => (c, cs)
      | none =>
        match active with
        | c :: _ => (c, ([] : List Participant))
        | [] => (⟨0, 0, 0, false, none⟩, [])  -- unreachable: active has ≥ 2 rows here
    let n := db.participants.length
    let db2 := { db with
      participants := db.participants.map (fun p =>
        if p.id = pick.1.id then { p with eliminated := true, eliminated_order := some n } else p) }
    (db2, pick.2, true)

/-- The elimination loop of `startElimination` (index.js lines 197-241):
run `eliminateOne` every tick while it keeps rescheduling itself; `fuel`
bounds the number of ticks.  `order` is the shuffled participant snapshot
loaded when the loop started. -/
def runElimination : Nat → Db → List Participant → Db
  | 0, db, _ => db
  | fuel + 1, db, order =>
    let step := eliminateOne db order
    if step.2.2 then runElimination fuel step.1 step.2.1 else step.1

/-! ## Wheel creation (index.js lines 64-81) -/

/-- The `entry_fee || 100` defaulting of the create handler: a missing or
falsy (in particular zero) entry fee becomes 100. -/
def createWheelFee (entry_fee : Option Nat) : Nat :=
  match entry_fee with
  | none => 100
  | some v => if v = 0 then 100 else v

/-- The create handler, `app.post(/api/wheels)` (index.js lines 64-81):
require the requesting user to be an admin, require no pending or active
wheel to exist, then insert the new wheel with `entry_fee || 100`.
`newId` and `dfltMin` stand for the serial id and the `min_participants`
schema default supplied by the database (the migrations file is not part of
the sources). -/
def createWheel (users : List User) (wheels : List Wheel) (newId : Nat) (dfltMin : Nat)
    (owner_id : Nat) (entry_fee : Option Nat) : Except String Wheel :=
  match users.find? (fun u => u.id == owner_id) with
  | none => .error "only admin"
  | some u =>
    if !u.is_admin then .error "only admin"
    else if wheels.any (fun w => w.status == WStatus.pending || w.status == WStatus.active) then
      .error "active wheel exists"
    else .ok { id := newId, owner_id := owner_id, entry_fee := createWheelFee entry_fee,
               min_participants := dfltMin, status := WStatus.pending,
               winner_pool := 0, admin_pool := 0, app_pool := 0 }

/-! ## Ledger reconciliation quantities -/

/-- Number of `users` rows carrying a given id. -/
def occ : List User → Nat → Nat
  | [], _ => 0
  | u :: us, uid => (if u.id = uid then 1 else 0) + occ us uid

/-- Balance of a user read off the table: sum of the `coins` of the rows
with that id (the row value itself whenever ids are unique). -/
def balSum : List User → Nat → Int
  | [], _ => 0
  | u :: us, uid => (if u.id = uid then u.coins else 0) + balSum us uid

/-- Sum of the recorded transaction amounts for a user. -/
def txSum : List Txn → Nat → Int
  | [], _ => 0
  | t :: ts, uid => (if t.user_id = uid then t.amount else 0) + txSum ts uid

/-- Ledger reconciliation quantity: balance minus the sum of recorded
transaction amounts.  An operation that appends a transaction for every
balance change leaves it unchanged for every user. -/
def recon (db : Db) (uid : Nat) : Int := balSum db.users uid - txSum db.transactions uid

/-- The `users` table has at most one row per id (its primary key). -/
def UsersOK (us : List User) : Prop := us.Pairwise (fun a b => a.id ≠ b.id)

/-- Some `users` row carries this id. -/
def hasId (us : List User) (uid : Nat) : Prop := 0 < occ us uid

/-- Well-formed database: unique user ids, every participant row and the
wheel owner refer to an existing user. -/
def WF (db : Db) : Prop :=
  UsersOK db.users ∧ (∀ p ∈ db.participants, hasId db.users p.user_id) ∧
    hasId db.users db.wheel.owner_id

/-- The balance-mutating operations of the engine: a join request, the
abort/refund path and the finalize/payout path. -/
inductive LedgerOp where
  | join (uid : Nat)
  | refund (reason : String)
  | finalize (winner : Nat)
deriving DecidableEq, Repr

/-- Apply one balance-mutating operation (a failed join rolls back). -/
def applyOp (cfg : SplitCfg) (db : Db) : LedgerOp → Db
  | .join uid => match joinWheel cfg db uid with | .ok d2 => d2 | .error _ => db
  | .refund reason => refundWheel db reason
  | .finalize w => finalizeWinner db w

/-- Apply a sequence of balance-mutating operations. -/
def runOps (cfg : SplitCfg) (db : Db) (ops : List LedgerOp) : Db :=
  ops.foldl (applyOp cfg) db

/-! ## The prisma game service (gameService: createWheel, deterministicSpinIndex,
startWheel) -/

/-- A weighted wheel segment, `{ label, weight }`; the weight field may be
absent. -/
structure Segment where
  label : String
  weight : Option Nat
deriving DecidableEq, Repr

/-- Effective weight of a segment, `seg.weight || 1` (a missing or zero —
falsy — weight counts as 1). -/
def effW (s : Segment) : Nat :=
  match s.weight with
  | none => 1
  | some w => if w = 0 then 1 else w

/-- `segments.reduce((s, seg) => s + (seg.weight || 1), 0)`. -/
def totalWeight (segs : List Segment) : Nat := (segs.map effW).sum

/-- Cumulative weight of the first `i + 1` segments. -/
def cumW (segs : List Segment) (i : Nat) : Nat := ((segs.take (i + 1)).map effW).sum

/-- The cumulative-weight walk of `deterministicSpinIndex`: starting from
accumulator `acc` and absolute index `i`, return the first index whose
cumulative weight exceeds `pick`, or `n - 1` (with `n` the segment count)
when the loop runs off the end. -/
def pickLoop (pick n : Nat) : List Segment → Nat → Nat → Nat
  | [], _, _ => n - 1
  | s :: rest, acc, i =>
    if pick < acc + effW s then i else pickLoop pick n rest (acc + effW s) (i + 1)

/-- `deterministicSpinIndex(serverSeed, nonce, segments)`: compute the keyed
digest of the stringified nonce under the seed (the HMAC-SHA256 digest with
its first 15 hex digits parsed as a number — supplied here as the parameter
`hmacNum`), reduce it modulo the total weight, and walk the cumulative
weights. -/
def deterministicSpinIndex (hmacNum : String → String → Nat) (serverSeed : String)
    (nonce : Nat) (segments : List Segment) : Nat :=
  let num := hmacNum serverSeed (toString nonce)
  let pick := num % totalWeight segments
  pickLoop pick segments.length segments 0 0

/-- First relative index whose cumulative weight (on top of `acc`) exceeds
`pick`; helper for relating the walk to its specification. -/
def firstHit (pick : Nat) : Nat → List Segment → Option Nat
  | _, [] => none
  | acc, s :: rest =>
    if pick < acc + effW s then some 0
    else (firstHit pick (acc + effW s) rest).map (fun k => k + 1)

/-- Selection as worded by the specification: reduce the keyed digest of the
nonce under the seed modulo the total segment weight and take the first
index whose cumulative weight exceeds the reduced value. -/
def specSelectedIndex (hmacNum : String → String → Nat) (serverSeed : String)
    (nonce : Nat) (segments : List Segment) : Option Nat :=
  let pick := hmacNum serverSeed (toString nonce) % totalWeight segments
  (List.range segments.length).find? (fun i => decide (pick < cumW segments i))

/-- A prisma `User` record. -/
structure PUser where
  id : Nat
  balance : Int
deriving DecidableEq, Repr

/-- A prisma `Wheel` record. -/
structure PWheel where
  id : Nat
  hostId : Nat
  title : String
  segments : List Segment
  entryFee : Int
  maxPlayers : Nat
  status : String
  serverSeedHash : String
  serverSeed : Option String
deriving DecidableEq, Repr

/-- A prisma `Join` record. -/
structure PJoin where
  id : Nat
  userId : Nat
  wheelId : Nat
  paid : Bool
  payout : Option Int
deriving DecidableEq, Repr

/-- State of the prisma store for one wheel.  The `transactions` field is
the ledger table of the unified data model; the game service never writes
to it. -/
structure PState where
  users : List PUser
  wheel : PWheel
  joins : List PJoin
  transactions : List Txn
deriving DecidableEq, Repr

/-- Payload of the `wheel:finished` event emitted by `startWheel`. -/
structure FinishedEvent where
  wheelId : Nat
  nonce : Nat
  serverSeedHash : String
  serverSeed : String
  winner : Nat
  payout : Int
deriving DecidableEq, Repr

/-- `createWheel` of the game service: draw a secret seed (supplied as the
parameter `seed`, standing for `crypto.randomBytes(32)`), store only its
hash (`hash` stands for sha256-hex) in the created record — the stored
`serverSeed` column stays empty — and hand the seed back to the runtime.
`wid` stands for the id prisma generates. -/
def pCreateWheel (hash : String → String) (seed : String) (wid hostId : Nat)
    (title : String) (segments : List Segment) (entryFee : Int) (maxPlayers : Nat) :
    PWheel × String :=
  ({ id := wid, hostId := hostId, title := title, segments := segments,
     entryFee := entryFee, maxPlayers := maxPlayers, status := "waiting",
     serverSeedHash := hash seed, serverSeed := none }, seed)

/-- `startWheel` of the game service (the Redis lock is mutual exclusion
against concurrent starts and is not part of the state transformation):
require the wheel `waiting`, collect the paid joins, compute the pool as
`players.length * entryFee`, obtain the secret seed from the in-memory
store (`seedStore`), pick the winner by the keyed digest of the nonce
reduced modulo the player count, then in one transaction set the winning
join's payout, increment the winner's balance — with no ledger transaction
record appended — and persist `status = finished` together with the
revealed `serverSeed`.  Emits the `wheel:finished` event carrying the
seed. -/
def pStartWheel (hmacNum : String → String → Nat) (st : PState)
    (seedStore : Option String) (nonce : Nat) : Except String (PState × FinishedEvent) :=
  if st.wheel.status ≠ "waiting" then .error "Wheel not in waiting state"
  else
    let players := st.joins.filter (fun j => j.paid)
    let pool := (players.length : Int) * st.wheel.entryFee
    match seedStore with
    | none => .error "Missing server seed"
    | some serverSeed =>
      let num := hmacNum serverSeed (toString nonce)
      let winnerIdx := num % players.length
      match players.get? winnerIdx with
      | none => .error "runtime error"  -- with no players the JS code throws on undefined
      | some winnerJoin =>
        let payout := pool
        .ok ({ st with
          joins := st.joins.map (fun j =>
            if j.id = winnerJoin.id then { j with payout := some payout } else j),
          users := st.users.map (fun u =>
            if u.id = winnerJoin.userId then { u with balance := u.balance + payout } else u),
          wheel := { st.wheel with status := "finished", serverSeed := some serverSeed } },
        { wheelId := st.wheel.id, nonce := nonce, serverSeedHash := st.wheel.serverSeedHash,
          serverSeed := serverSeed, winner := winnerJoin.userId, payout := payout })

/-- A trivial keyed digest used to instantiate witnesses. -/
def hmacZero : String → String → Nat := fun _ _ => 0

/-! ## Concrete states used to evaluate the code on explicit inputs -/

/-- A pending wheel with fee 100 and a single user holding 200 coins. -/
def dbC2 : Db :=
  { users := [{ id := 1, username := "alice", coins := 200, is_admin := false }],
    wheel := { id := 5, owner_id := 9, entry_fee := 100, min_participants := 2,
               status := WStatus.pending, winner_pool := 0, admin_pool := 0, app_pool := 0 },
    participants := [], transactions := [] }

/-- `dbC2` after a first join by user 1. -/
def dbC2a : Db := applyOp defaultSplit dbC2 (.join 1)

/-- `dbC2a` after a second join by the same user 1. -/
def dbC2b : Db := applyOp defaultSplit dbC2a (.join 1)

/-- A pending wheel with fee 100, three players with 100 coins each and the
admin owner. -/
def dbInit3 : Db :=
  { users := [{ id := 1, username := "ann", coins := 100, is_admin := false },
              { id := 2, username := "bob", coins := 100, is_admin := false },
              { id := 3, username := "cyd", coins := 100, is_admin := false },
              { id := 9, username := "adm", coins := 0, is_admin := true }],
    wheel := { id := 5, owner_id := 9, entry_fee := 100, min_participants := 2,
               status := WStatus.pending, winner_pool := 0, admin_pool := 0, app_pool := 0 },
    participants := [], transactions := [] }

/-- `dbInit3` after users 1, 2 and 3 joined. -/
def dbJoined3 : Db := runJoins defaultSplit dbInit3 [1, 2, 3]

/-- `dbJoined3` marked active, as the start handler leaves it. -/
def dbActive3 : Db := { dbJoined3 with wheel := { dbJoined3.wheel with status := WStatus.active } }

/-- `dbActive3` after one elimination tick. -/
def dbTick1 : Db := runElimination 1 dbActive3 (activeParts dbActive3)

/-- `dbActive3` after two elimination ticks. -/
def dbTick2 : Db := runElimination 2 dbActive3 (activeParts dbActive3)

/-- `dbActive3` after the full elimination loop (three ticks: two
eliminations and the finalization). -/
def dbElim : Db := runElimination 3 dbActive3 (activeParts dbActive3)

/-- A waiting prisma wheel with one paid join by user 7 whose balance is 0. -/
def pStC4 : PState :=
  { users := [{ id := 7, balance := 0 }],
    wheel := { id := 1, hostId := 2, title := "w", segments := [{ label := "a", weight := some 1 }],
               entryFee := 100, maxPlayers := 8, status := "waiting",
               serverSeedHash := "h", serverSeed := none },
    joins := [{ id := 1, userId := 7, wheelId := 1, paid := true, payout := none }],
    transactions := [] }

/-- The state `startWheel` leaves behind on `pStC4`. -/
def pStC4r : PState :=
  match pStartWheel hmacZero pStC4 (some "s") 1 with
  | .ok (st, _) => st
  | .error _ => pStC4

/-- The credit transaction the refund loop inserts for a participant. -/
def refundTxn (wid fee : Nat) (reason : String) (uid : Nat) : Txn :=
  { user_id := uid, amount := (fee : Int), kind := "credit",
    meta_wheel := wid, meta_reason := some reason, meta_role := none }

/-! ## Characterization of a successful join -/

/-- The debit transaction a join inserts. -/
def joinTxn (db : Db) (uid : Nat) : Txn :=
  { user_id := uid, amount := -(db.wheel.entry_fee : Int), kind := "debit",
    meta_wheel := db.wheel.id, meta_reason := none, meta_role := none }

/-- The participant row a join inserts. -/
def joinRow (db : Db) (uid : Nat) : Participant :=
  { id := db.participants.length, wheel_id := db.wheel.id, user_id := uid,
    eliminated := false, eliminated_order := none }

theorem joinWheel_ok_spec (cfg : SplitCfg) (db : Db) (uid : Nat) (db2 : Db)
    (h : joinWheel cfg db uid = .ok db2) :
    db.wheel.status = WStatus.pending ∧
    ∃ u0, db.users.find? (fun u => u.id == uid) = some u0 ∧
      (db.wheel.entry_fee : Int) ≤ u0.coins ∧
      db2 = { db with
        users := setCoins db.users uid (u0.coins - (db.wheel.entry_fee : Int)),
        transactions := db.transactions ++ [joinTxn db uid],
        wheel := { db.wheel with
          winner_pool := db.wheel.winner_pool + (winnerAmt db.wheel.entry_fee cfg : Int),
          admin_pool := db.wheel.admin_pool + (adminAmt db.wheel.entry_fee cfg : Int),
          app_pool := db.wheel.app_pool + appAmt db.wheel.entry_fee cfg },
        participants := db.participants ++ [joinRow db uid] } := by
  unfold joinWheel at h
  split at h
  · exact absurd h (by simp)
  · rename_i hstatus
    split at h
    · exact absurd h (by simp)
    · rename_i u0 hfind
      split at h
      · exact absurd h (by simp)
      · rename_i hcoins
        refine ⟨by revert hstatus; simp, u0, hfind, by omega, ?_⟩
        cases h
        rfl

/-! ## Ledger bookkeeping lemmas -/

theorem txSum_append (a b : List Txn) (uid : Nat) :
    txSum (a ++ b) uid = txSum a uid + txSum b uid := by
  induction a with
  | nil => simp [txSum]
  | cons t ts ih =>
    show (if t.user_id = uid then t.amount else 0) + txSum (ts ++ b) uid =
      ((if t.user_id = uid then t.amount else 0) + txSum ts uid) + txSum b uid
    rw [ih]; ring

theorem occ_setCoins (us : List User) (uid : Nat) (v : Int) (w : Nat) :
    occ (setCoins us uid v) w = occ us w := by
  induction us with
  | nil => rfl
  | cons u us ih =>
    unfold setCoins at ih ⊢
    by_cases h : u.id = uid <;> simp [occ, h, ih]

theorem occ_creditUser (us : List User) (uid : Nat) (amt : Int) (w : Nat) :
    occ (creditUser us uid amt) w = occ us w := by
  induction us with
  | nil => rfl
  | cons u us ih =>
    unfold creditUser at ih ⊢
    by_cases h : u.id = uid <;> simp [occ, h, ih]

theorem balSum_setCoins_self (us : List User) (uid : Nat) (v : Int) :
    balSum (setCoins us uid v) uid = (occ us uid : Int) * v := by
  induction us with
  | nil => simp [setCoins, balSum, occ]
  | cons u us ih =>
    unfold setCoins at ih ⊢
    by_cases h : u.id = uid <;> simp [balSum, occ, h, ih] <;> push_cast <;> ring

theorem balSum_setCoins_other (us : List User) (uid : Nat) (v : Int) (w : Nat)
    (hw : w ≠ uid) : balSum (setCoins us uid v) w = balSum us w := by
  induction us with
  | nil => rfl
  | cons u us ih =>
    unfold setCoins at ih ⊢
    by_cases h : u.id = uid
    · have h2 : ¬ uid = w := by omega
      simp [balSum, h, h2, ih]
    · simp [balSum, h, ih]

theorem balSum_creditUser_self (us : List User) (uid : Nat) (amt : Int) :
    balSum (creditUser us uid amt) uid = balSum us uid + (occ us uid : Int) * amt := by
  induction us with
  | nil => simp [creditUser, balSum, occ]
  | cons u us ih =>
    unfold creditUser at ih ⊢
    by_cases h : u.id = uid <;> simp [balSum, occ, h, ih] <;> push_cast <;> ring

theorem balSum_creditUser_other (us : List User) (uid : Nat) (amt : Int) (w : Nat)
    (hw : w ≠ uid) : balSum (creditUser us uid amt) w = balSum us w := by
  induction us with
  | nil => rfl
  | cons u us ih =>
    unfold creditUser at ih ⊢
    by_cases h : u.id = uid
    · have h2 : ¬ uid = w := by omega
      simp [balSum, h, h2, ih]
    · simp [balSum, h, ih]

theorem occ_eq_zero_of_all_ne (us : List User) (uid : Nat)
    (h : ∀ u ∈ us, u.id ≠ uid) : occ us uid = 0 := by
  induction us with
  | nil => rfl
  | cons u us ih =>
    have hu := h u (by simp)
    simp [occ, hu, ih (fun v hv => h v (by simp [hv]))]

theorem balSum_of_occ_zero (us : List User) (uid : Nat) (h : occ us uid = 0) :
    balSum us uid = 0 := by
  induction us with
  | nil => rfl
  | cons u us ih =>
    by_cases hu : u.id = uid
    · simp [occ, hu] at h
    · simp [occ, hu] at h
      simp [balSum, hu, ih h]

theorem balSum_find (us : List User) (uid : Nat) (u0 : User)
    (hok : UsersOK us) (h : us.find? (fun u => u.id == uid) = some u0) :
    balSum us uid = u0.coins ∧ occ us uid = 1 := by
  induction us with
  | nil => simp [List.find?] at h
  | cons u tl ih =>
    by_cases hu : u.id = uid
    · rw [List.find?_cons_of_pos _ (by simp [hu])] at h
      cases h
      have hne : ∀ b ∈ tl, b.id ≠ uid := by
        intro b hb
        have := (List.pairwise_cons.mp hok).1 b hb
        omega
      have hz := occ_eq_zero_of_all_ne tl uid hne
      simp [balSum, occ, hu, hz, balSum_of_occ_zero tl uid hz]
    · rw [List.find?_cons_of_neg _ (by simp [hu])] at h
      have := ih (List.pairwise_cons.mp hok).2 h
      simp [balSum, occ, hu, this.1, this.2]

theorem occ_pos_of_mem (us : List User) (uid : Nat) (u0 : User)
    (hmem : u0 ∈ us) (hid : u0.id = uid) : 0 < occ us uid := by
  induction us with
  | nil => simp at hmem
  | cons u tl ih =>
    rcases List.mem_cons.mp hmem with h | h
    · subst h; simp [occ, hid]
    · have := ih h
      by_cases hu : u.id = uid <;> simp [occ, hu] <;> omega

theorem hasId_of_find (us : List User) (uid : Nat) (u0 : User)
    (h : us.find? (fun u => u.id == uid) = some u0) : hasId us uid := by
  have hmem := List.mem_of_find?_eq_some h
  have hid : u0.id = uid := by simpa using List.find?_some h
  exact occ_pos_of_mem us uid u0 hmem hid

theorem UsersOK_setCoins (us : List User) (uid : Nat) (v : Int)
    (h : UsersOK us) : UsersOK (setCoins us uid v) := by
  apply List.Pairwise.map _ _ h
  intro a b hab
  show (if a.id = uid then { a with coins := v } else a).id ≠
    (if b.id = uid then { b with coins := v } else b).id
  split <;> split <;> simpa

theorem UsersOK_creditUser (us : List User) (uid : Nat) (amt : Int)
    (h : UsersOK us) : UsersOK (creditUser us uid amt) := by
  apply List.Pairwise.map _ _ h
  intro a b hab
  show (if a.id = uid then { a with coins := a.coins + amt } else a).id ≠
    (if b.id = uid then { b with coins := b.coins + amt } else b).id
  split <;> split <;> simpa

/-! ## Pool invariant (claim C1) -/

theorem joinStep_pools (cfg : SplitCfg) (db : Db) (uid : Nat) (db2 : Db)
    (h : joinWheel cfg db uid = .ok db2) :
    poolSum db2.wheel = poolSum db.wheel + (db.wheel.entry_fee : Int) ∧
    db2.participants.length = db.participants.length + 1 ∧
    db2.wheel.entry_fee = db.wheel.entry_fee := by
  obtain ⟨-, u0, -, -, rfl⟩ := joinWheel_ok_spec cfg db uid db2 h
  refine ⟨?_, by simp, rfl⟩
  simp [poolSum, appAmt]
  ring

theorem runJoins_inv (cfg : SplitCfg) (reqs : List Nat) : ∀ db0 : Db,
    poolSum db0.wheel = (db0.participants.length : Int) * (db0.wheel.entry_fee : Int) →
    poolSum (runJoins cfg db0 reqs).wheel =
      ((runJoins cfg db0 reqs).participants.length : Int) *
        ((runJoins cfg db0 reqs).wheel.entry_fee : Int) := by
  induction reqs with
  | nil => intro db0 h; simpa [runJoins]
  | cons r rs ih =>
    intro db0 h
    cases hj : joinWheel cfg db0 r with
    | error e =>
      have hstep : runJoins cfg db0 (r :: rs) = runJoins cfg db0 rs := by
        simp [runJoins, hj]
      rw [hstep]
      exact ih db0 h
    | ok db1 =>
      have hstep : runJoins cfg db0 (r :: rs) = runJoins cfg db1 rs := by
        simp [runJoins, hj]
      rw [hstep]
      apply ih db1
      obtain ⟨hp, hl, hf⟩ := joinStep_pools cfg db0 r db1 hj
      rw [hp, hl, hf, h]
      push_cast
      ring

/-- Claim C1: before finalization, the pools satisfy `winnerPool + adminPool
+ appPool = (number of paid joins) × entry fee` after every sequence of join
operations from any state satisfying it; each successful join adds
`winnerAmt = floor(fee·winnerPct/100)`, `adminAmt = floor(fee·adminPct/100)`
and `appAmt = fee − winnerAmt − adminAmt` to the respective pools, the
flooring remainder being absorbed by the app pool — e.g. fee 101 at split
70/20/10 gives winner 70, admin 20, app 11. -/
theorem C1_pool_invariant (cfg : SplitCfg) (db0 : Db) (reqs : List Nat)
    (h0 : poolSum db0.wheel = (db0.participants.length : Int) * (db0.wheel.entry_fee : Int)) :
    (poolSum (runJoins cfg db0 reqs).wheel =
      ((runJoins cfg db0 reqs).participants.length : Int) *
        ((runJoins cfg db0 reqs).wheel.entry_fee : Int)) ∧
    (∀ db db2 uid, joinWheel cfg db uid = .ok db2 →
      db2.wheel.winner_pool = db.wheel.winner_pool + (winnerAmt db.wheel.entry_fee cfg : Int) ∧
      db2.wheel.admin_pool = db.wheel.admin_pool + (adminAmt db.wheel.entry_fee cfg : Int) ∧
      db2.wheel.app_pool = db.wheel.app_pool + appAmt db.wheel.entry_fee cfg) ∧
    (∀ fee : Nat,
      (winnerAmt fee cfg : Int) + (adminAmt fee cfg : Int) + appAmt fee cfg = (fee : Int)) ∧
    (winnerAmt 101 defaultSplit = 70 ∧ adminAmt 101 defaultSplit = 20 ∧
      appAmt 101 defaultSplit = 11) := by
  refine ⟨runJoins_inv cfg reqs db0 h0, ?_, ?_, by decide⟩
  · intro db db2 uid h
    obtain ⟨-, u0, -, -, rfl⟩ := joinWheel_ok_spec cfg db uid db2 h
    exact ⟨rfl, rfl, rfl⟩
  · intro fee
    unfold appAmt
    ring

theorem C1_pool_invariant_witness :
    (poolSum dbInit3.wheel = (dbInit3.participants.length : Int) * (dbInit3.wheel.entry_fee : Int))
    ∧ poolSum (runJoins defaultSplit dbInit3 [1, 2, 3]).wheel =
        ((runJoins defaultSplit dbInit3 [1, 2, 3]).participants.length : Int) *
          ((runJoins defaultSplit dbInit3 [1, 2, 3]).wheel.entry_fee : Int) :=
  ⟨by decide, (C1_pool_invariant defaultSplit dbInit3 [1, 2, 3] (by decide)).1⟩

/-! ## Wheel creation defaulting (claim C10) -/

/-- Claim C10: wheel creation substitutes the default entry fee 100 whenever
the supplied `entry_fee` is absent or falsy (zero); a truthy supplied value
is kept as given.  Hence the handler never creates a wheel with entry fee 0,
and a supplied fee of 0 is silently replaced by 100 instead of rejected. -/
theorem C10_default_entry_fee (users : List User) (wheels : List Wheel)
    (newId dfltMin owner_id : Nat) (entry_fee : Option Nat) (w : Wheel)
    (h : createWheel users wheels newId dfltMin owner_id entry_fee = .ok w) :
    (∀ n, entry_fee = some n → n ≠ 0 → w.entry_fee = n) ∧
    ((entry_fee = none ∨ entry_fee = some 0) → w.entry_fee = 100) ∧
    w.entry_fee ≠ 0 := by
  unfold createWheel at h
  split at h
  · exact absurd h (by simp)
  · split at h
    · exact absurd h (by simp)
    · split at h
      · exact absurd h (by simp)
      · cases h
        refine ⟨?_, ?_, ?_⟩
        · intro n hn hnz
          subst hn
          simp [createWheelFee, hnz]
        · rintro (rfl | rfl) <;> simp [createWheelFee]
        · cases entry_fee with
          | none => simp [createWheelFee]
          | some v =>
            by_cases hv : v = 0 <;> simp [createWheelFee, hv]

theorem C10_default_entry_fee_witness :
    (∀ n, (some 0 : Option Nat) = some n → n ≠ 0 →
      (Wheel.mk 1 9 100 2 WStatus.pending 0 0 0).entry_fee = n) ∧
    (((some 0 : Option Nat) = none ∨ (some 0 : Option Nat) = some 0) →
      (Wheel.mk 1 9 100 2 WStatus.pending 0 0 0).entry_fee = 100) ∧
    (Wheel.mk 1 9 100 2 WStatus.pending 0 0 0).entry_fee ≠ 0 :=
  C10_default_entry_fee [{ id := 9, username := "adm", coins := 0, is_admin := true }] [] 1 2 9
    (some 0) (Wheel.mk 1 9 100 2 WStatus.pending 0 0 0) (by rfl)

/-! ## Duplicate joins are not rejected (claim C2) -/

/-- Claim C2 fails on the code: the join handler performs no duplicate-join
check, so a second join by the same user on the same pending wheel succeeds
whenever the balance still covers the fee.  Starting from a pending wheel
with fee 100 and user 1 holding 200 coins, two successive joins by user 1
both commit: the user is debited twice (balance 0, two debit transactions)
and is registered as a participant twice; no `DuplicateJoin` rejection
exists anywhere in the handler. -/
theorem C2_duplicate_join_accepted :
    dbC2b.participants.map (fun p => p.user_id) = [1, 1] ∧
    balSum dbC2b.users 1 = 0 ∧
    dbC2b.transactions.map (fun t => t.amount) = [-100, -100] ∧
    (joinWheel defaultSplit dbC2 1 = .ok dbC2a) ∧
    (joinWheel defaultSplit dbC2a 1 = .ok dbC2b) := by
  refine ⟨by decide, by decide, by decide, by rfl, by rfl⟩

/-! ## The weighted draw (claims C6 and C9) -/

theorem one_le_effW (s : Segment) : 1 ≤ effW s := by
  obtain ⟨l, w⟩ := s
  cases w with
  | none => simp [effW]
  | some v => by_cases h : v = 0 <;> simp [effW, h] <;> omega

theorem length_le_totalWeight (segs : List Segment) : segs.length ≤ totalWeight segs := by
  induction segs with
  | nil => simp [totalWeight]
  | cons s rest ih =>
    have h1 := one_le_effW s
    unfold totalWeight at ih ⊢
    simp only [List.map_cons, List.sum_cons, List.length_cons]
    omega

theorem totalWeight_pos (segs : List Segment) (h : segs ≠ []) : 0 < totalWeight segs := by
  have h1 := length_le_totalWeight segs
  have h2 : 0 < segs.length := List.length_pos.mpr h
  omega

theorem cumW_cons_zero (s : Segment) (rest : List Segment) : cumW (s :: rest) 0 = effW s := by
  simp [cumW]

theorem cumW_cons_succ (s : Segment) (rest : List Segment) (k : Nat) :
    cumW (s :: rest) (k + 1) = effW s + cumW rest k := by
  simp [cumW, List.take_succ_cons]

theorem pickLoop_of_firstHit_some (pick n : Nat) (segs : List Segment) : ∀ acc i k : Nat,
    firstHit pick acc segs = some k → pickLoop pick n segs acc i = i + k := by
  induction segs with
  | nil => intro acc i k h; simp [firstHit] at h
  | cons s rest ih =>
    intro acc i k h
    unfold firstHit at h
    unfold pickLoop
    by_cases hc : pick < acc + effW s
    · simp [hc] at h ⊢
      omega
    · simp only [hc, if_false] at h ⊢
      cases hf : firstHit pick (acc + effW s) rest with
      | none => rw [hf] at h; simp at h
      | some k0 =>
        rw [hf] at h
        simp at h
        rw [ih (acc + effW s) (i + 1) k0 hf]
        omega

theorem pickLoop_of_firstHit_none (pick n : Nat) (segs : List Segment) : ∀ acc i : Nat,
    firstHit pick acc segs = none → pickLoop pick n segs acc i = n - 1 := by
  induction segs with
  | nil => intro acc i h; rfl
  | cons s rest ih =>
    intro acc i h
    unfold firstHit at h
    unfold pickLoop
    by_cases hc : pick < acc + effW s
    · simp [hc] at h
    · simp only [hc, if_false] at h ⊢
      cases hf : firstHit pick (acc + effW s) rest with
      | some k0 => rw [hf] at h; simp at h
      | none => exact ih (acc + effW s) (i + 1) hf

theorem firstHit_lt_length (pick : Nat) (segs : List Segment) : ∀ acc k : Nat,
    firstHit pick acc segs = some k → k < segs.length := by
  induction segs with
  | nil => intro acc k h; simp [firstHit] at h
  | cons s rest ih =>
    intro acc k h
    unfold firstHit at h
    by_cases hc : pick < acc + effW s
    · simp [hc] at h
      simp [← h]
    · simp only [hc, if_false] at h
      cases hf : firstHit pick (acc + effW s) rest with
      | none => rw [hf] at h; simp at h
      | some k0 =>
        rw [hf] at h
        simp at h
        have := ih (acc + effW s) k0 hf
        simp only [List.length_cons]
        omega

theorem firstHit_isSome (pick : Nat) (segs : List Segment) : ∀ acc : Nat, acc ≤ pick →
    pick < acc + (segs.map effW).sum → (firstHit pick acc segs).isSome := by
  induction segs with
  | nil => intro acc h1 h2; simp at h2; omega
  | cons s rest ih =>
    intro acc h1 h2
    unfold firstHit
    by_cases hc : pick < acc + effW s
    · simp [hc]
    · simp only [hc, if_false]
      have hs := ih (acc + effW s) (by omega)
        (by simp only [List.map_cons, List.sum_cons] at h2; omega)
      cases hf : firstHit pick (acc + effW s) rest with
      | none => rw [hf] at hs; simp at hs
      | some k0 => simp

theorem findRange_eq_firstHit (pick : Nat) (segs : List Segment) : ∀ acc : Nat,
    (List.range segs.length).find? (fun i => decide (pick < acc + cumW segs i)) =
      firstHit pick acc segs := by
  induction segs with
  | nil => intro acc; rfl
  | cons s rest ih =>
    intro acc
    rw [List.length_cons, List.range_succ_eq_map]
    by_cases hc : pick < acc + effW s
    · rw [List.find?_cons_of_pos _ (by simp [cumW_cons_zero, hc])]
      unfold firstHit
      simp [hc]
    · rw [List.find?_cons_of_neg _ (by simp [cumW_cons_zero, hc])]
      rw [List.find?_map]
      unfold firstHit
      simp only [hc, if_false]
      have hp : ((fun i => decide (pick < acc + cumW (s :: rest) i)) ∘ Nat.succ) =
          (fun i => decide (pick < acc + effW s + cumW rest i)) := by
        funext k
        simp only [Function.comp_apply, Nat.succ_eq_add_one, cumW_cons_succ]
        exact decide_eq_decide.mpr (by constructor <;> omega)
      rw [hp, ih (acc + effW s)]

/-- Claim C6: for every seed, nonce and non-empty weighted segment list, the
draw reduces the keyed digest of the nonce under the seed modulo the total
weight and returns the first index whose cumulative weight exceeds the
reduced value (exactly the selection the specification words describe), and
the selection is a deterministic function of (seed, nonce, segments), so
recomputing it from the revealed seed and nonce reproduces the index used
during the round. -/
theorem C6_weighted_draw (hmacNum : String → String → Nat) (seed : String) (nonce : Nat)
    (segs : List Segment) (h : segs ≠ []) :
    specSelectedIndex hmacNum seed nonce segs =
      some (deterministicSpinIndex hmacNum seed nonce segs) ∧
    (∀ seed2 nonce2 segs2, seed2 = seed → nonce2 = nonce → segs2 = segs →
      deterministicSpinIndex hmacNum seed2 nonce2 segs2 =
        deterministicSpinIndex hmacNum seed nonce segs) := by
  have hlt : hmacNum seed (toString nonce) % totalWeight segs < totalWeight segs :=
    Nat.mod_lt _ (totalWeight_pos segs h)
  have hsome := firstHit_isSome (hmacNum seed (toString nonce) % totalWeight segs) segs 0
    (Nat.zero_le _) (by simpa [totalWeight] using hlt)
  obtain ⟨k, hk⟩ := Option.isSome_iff_exists.mp hsome
  constructor
  · show (List.range segs.length).find?
        (fun i => decide (hmacNum seed (toString nonce) % totalWeight segs < cumW segs i)) =
      some (pickLoop (hmacNum seed (toString nonce) % totalWeight segs) segs.length segs 0 0)
    have hpred : (fun i =>
          decide (hmacNum seed (toString nonce) % totalWeight segs < cumW segs i)) =
        (fun i =>
          decide (hmacNum seed (toString nonce) % totalWeight segs < 0 + cumW segs i)) := by
      funext i
      rw [Nat.zero_add]
    rw [hpred, findRange_eq_firstHit, hk,
      pickLoop_of_firstHit_some _ segs.length segs 0 0 k hk, Nat.zero_add]
  · intro seed2 nonce2 segs2 h1 h2 h3
    rw [h1, h2, h3]

theorem C6_weighted_draw_witness :
    specSelectedIndex hmacZero "seed" 7 [{ label := "a", weight := some 2 },
        { label := "b", weight := none }] =
      some (deterministicSpinIndex hmacZero "seed" 7 [{ label := "a", weight := some 2 },
        { label := "b", weight := none }]) :=
  (C6_weighted_draw hmacZero "seed" 7 [{ label := "a", weight := some 2 },
    { label := "b", weight := none }] (by decide)).1

/-- Claim C9: for every non-empty segment list, every seed and every nonce,
the draw returns an index strictly below the segment count; a missing or
zero weight counts as 1, so the total weight is positive (at least the
segment count) and the modulo reduction is well defined. -/
theorem C9_index_in_range (hmacNum : String → String → Nat) (seed : String) (nonce : Nat)
    (segs : List Segment) (h : segs ≠ []) :
    deterministicSpinIndex hmacNum seed nonce segs < segs.length ∧
    0 < totalWeight segs ∧ segs.length ≤ totalWeight segs ∧
    (∀ l, effW { label := l, weight := none } = 1) ∧
    (∀ l, effW { label := l, weight := some 0 } = 1) ∧
    (∀ l w, w ≠ 0 → effW { label := l, weight := some w } = w) := by
  refine ⟨?_, totalWeight_pos segs h, length_le_totalWeight segs,
    fun l => rfl, fun l => rfl, fun l w hw => by simp [effW, hw]⟩
  have hlt : hmacNum seed (toString nonce) % totalWeight segs < totalWeight segs :=
    Nat.mod_lt _ (totalWeight_pos segs h)
  have hsome := firstHit_isSome (hmacNum seed (toString nonce) % totalWeight segs) segs 0
    (Nat.zero_le _) (by simpa [totalWeight] using hlt)
  obtain ⟨k, hk⟩ := Option.isSome_iff_exists.mp hsome
  have hb := firstHit_lt_length _ segs 0 k hk
  show pickLoop (hmacNum seed (toString nonce) % totalWeight segs) segs.length segs 0 0 <
    segs.length
  rw [pickLoop_of_firstHit_some _ segs.length segs 0 0 k hk]
  omega

theorem C9_index_in_range_witness :
    deterministicSpinIndex hmacZero "s" 3 [{ label := "x", weight := some 0 },
        { label := "y", weight := some 5 }] < 2 ∧
    0 < totalWeight [{ label := "x", weight := some 0 }, { label := "y", weight := some 5 }] :=
  ⟨by simpa using (C9_index_in_range hmacZero "s" 3 [{ label := "x", weight := some 0 },
      { label := "y", weight := some 5 }] (by decide)).1,
   (C9_index_in_range hmacZero "s" 3 [{ label := "x", weight := some 0 },
      { label := "y", weight := some 5 }] (by decide)).2.1⟩

/-- Claim C5: the commit-reveal scheme round-trips.  The wheel record
created by `createWheel` stores only the commitment `hash seed` — its
persisted `serverSeed` column is empty, so the seed is neither persisted nor
sent in the creation payload — and whenever `startWheel` finishes the wheel
from the runtime seed, the event it emits reveals exactly that seed, whose
hash equals the published commitment, and the seed is persisted only
together with the terminal `finished` status. -/
theorem C5_commit_reveal (hash : String → String) (hmacNum : String → String → Nat)
    (seed : String) (wid hostId : Nat) (title : String) (segs : List Segment)
    (fee : Int) (maxP : Nat) (users : List PUser) (joins : List PJoin) (txs : List Txn)
    (nonce : Nat) (st2 : PState) (ev : FinishedEvent)
    (hrun : pStartWheel hmacNum
      { users := users,
        wheel := (pCreateWheel hash seed wid hostId title segs fee maxP).1,
        joins := joins, transactions := txs }
      (some (pCreateWheel hash seed wid hostId title segs fee maxP).2) nonce =
        .ok (st2, ev)) :
    (pCreateWheel hash seed wid hostId title segs fee maxP).1.serverSeed = none ∧
    (pCreateWheel hash seed wid hostId title segs fee maxP).1.status = "waiting" ∧
    (pCreateWheel hash seed wid hostId title segs fee maxP).1.serverSeedHash = hash seed ∧
    ev.serverSeed = seed ∧
    hash ev.serverSeed =
      (pCreateWheel hash seed wid hostId title segs fee maxP).1.serverSeedHash ∧
    st2.wheel.serverSeed = some seed ∧
    st2.wheel.status = "finished" := by
  refine ⟨rfl, rfl, rfl, ?_⟩
  unfold pStartWheel at hrun
  rw [if_neg (by simp [pCreateWheel])] at hrun
  split at hrun
  · exact absurd hrun (by simp)
  · rename_i seedv hseedv
    have hsv : seedv = seed := (Option.some.inj hseedv).symm
    rw [hsv] at hrun
    dsimp only at hrun
    split at hrun
    · exact absurd hrun (by simp)
    · rename_i winnerJoin hget
      have h2 := Except.ok.inj hrun
      have hev : ev.serverSeed = seed := by
        have h3 := congrArg (fun q => q.2.serverSeed) h2
        simpa using h3.symm
      have hw1 : st2.wheel.serverSeed = some seed := by
        have h3 := congrArg (fun q => q.1.wheel.serverSeed) h2
        simpa using h3.symm
      have hw2 : st2.wheel.status = "finished" := by
        have h3 := congrArg (fun q => q.1.wheel.status) h2
        simpa using h3.symm
      exact ⟨hev, by rw [hev]; rfl, hw1, hw2⟩

theorem C5_commit_reveal_witness :
    ({ id := 1, hostId := 2, title := "t", segments := [{ label := "a", weight := some 1 }],
        entryFee := 100, maxPlayers := 8, status := "waiting", serverSeedHash := "Habc",
        serverSeed := none } : PWheel).serverSeed = none ∧
    (FinishedEvent.mk 1 5 "Habc" "abc" 7 100).serverSeed = "abc" ∧
    ({ users := [{ id := 7, balance := 100 }],
       wheel := { id := 1, hostId := 2, title := "t",
                  segments := [{ label := "a", weight := some 1 }], entryFee := 100,
                  maxPlayers := 8, status := "finished", serverSeedHash := "Habc",
                  serverSeed := some "abc" },
       joins := [{ id := 1, userId := 7, wheelId := 1, paid := true, payout := some 100 }],
       transactions := [] } : PState).wheel.status = "finished" := by
  have h := C5_commit_reveal (fun x => String.append "H" x) hmacZero "abc" 1 2 "t"
    [{ label := "a", weight := some 1 }] 100 8 [{ id := 7, balance := 0 }]
    [{ id := 1, userId := 7, wheelId := 1, paid := true, payout := none }] [] 5
    { users := [{ id := 7, balance := 100 }],
      wheel := { id := 1, hostId := 2, title := "t",
                 segments := [{ label := "a", weight := some 1 }], entryFee := 100,
                 maxPlayers := 8, status := "finished", serverSeedHash := "Habc",
                 serverSeed := some "abc" },
      joins := [{ id := 1, userId := 7, wheelId := 1, paid := true, payout := some 100 }],
      transactions := [] }
    (FinishedEvent.mk 1 5 "Habc" "abc" 7 100) (by rfl)
  exact ⟨h.1, h.2.2.2.1, h.2.2.2.2.2.2⟩

/-- Claim C3 fails on the code: on the active wheel `dbActive3` with three
paid participants, the loop does eliminate exactly one participant per tick
until one remains, and the survivor (user 3) is credited the full winner
pool of 210; but the assigned elimination-order values are NOT strictly
increasing — the tick writes `eliminated_order = (SELECT COUNT(*) FROM
spin_participants WHERE wheel_id=$1)`, the constant total participant
count, so both eliminated participants receive the value 3. -/
theorem C3_elimination_order_constant :
    dbTick1.participants.countP (fun p => p.eliminated) = 1 ∧
    dbTick2.participants.countP (fun p => p.eliminated) = 2 ∧
    dbElim.participants.map (fun p => p.eliminated_order) = [some 3, some 3, none] ∧
    dbElim.wheel.status = WStatus.finished ∧
    balSum dbElim.users 3 = dbJoined3.wheel.winner_pool ∧
    dbJoined3.wheel.winner_pool = 210 ∧
    ¬ (∃ a b, dbElim.participants.map (fun p => p.eliminated_order) = [some a, some b, none]
        ∧ a < b) := by
  refine ⟨by decide, by decide, by decide, by decide, by decide, by decide, ?_⟩
  rintro ⟨a, b, hab, hlt⟩
  have hmap : dbElim.participants.map (fun p => p.eliminated_order) =
      [some 3, some 3, none] := by decide
  rw [hmap] at hab
  have ha : (some 3 : Option Nat) = some a ∧ (some 3 : Option Nat) = some b := by
    have h1 := congrArg (fun l => l.get? 0) hab
    have h2 := congrArg (fun l => l.get? 1) hab
    simp at h1 h2
    exact ⟨by rw [h1], by rw [h2]⟩
  obtain ⟨h1, h2⟩ := ha
  have : a = 3 := (Option.some.inj h1).symm
  have : b = 3 := (Option.some.inj h2).symm
  omega

/-- Claim C7 fails on the code for elimination ticks: the deadline
auto-start callback is a no-op on a wheel in a terminal state (it checks the
status at the top of the callback), but `eliminateOne` performs no status
check at all — a stale elimination tick that fires on the already-finished
wheel `dbElim` re-runs `finalizeWinner`, crediting the winner pool and the
admin pool a second time (double payout) and appending two further credit
transactions, so it is a state mutation rather than a no-op. -/
theorem C7_stale_tick_not_noop :
    autoStartWheel dbElim = dbElim ∧
    autoStartWheel (refundWheel dbC2 "x") = refundWheel dbC2 "x" ∧
    (eliminateOne dbElim []).1 ≠ dbElim ∧
    balSum (eliminateOne dbElim []).1.users 3 =
      balSum dbElim.users 3 + dbElim.wheel.winner_pool ∧
    (eliminateOne dbElim []).1.transactions.length = dbElim.transactions.length + 2 :=
  ⟨by decide, by decide, by decide, by decide, by decide⟩

/-! ## Ledger reconciliation (claims C4 and C8) -/

theorem occ_le_one_of_usersOK (us : List User) (uid : Nat) (hok : UsersOK us) :
    occ us uid ≤ 1 := by
  induction us with
  | nil => simp [occ]
  | cons u tl ih =>
    obtain ⟨h1, h2⟩ := List.pairwise_cons.mp hok
    by_cases hu : u.id = uid
    · have hz : occ tl uid = 0 :=
        occ_eq_zero_of_all_ne tl uid (fun b hb => by have := h1 b hb; omega)
      simp [occ, hu, hz]
    · have := ih h2
      simp [occ, hu]
      omega

theorem occ_eq_one (us : List User) (uid : Nat) (hok : UsersOK us) (hhas : hasId us uid) :
    occ us uid = 1 := by
  have h1 := occ_le_one_of_usersOK us uid hok
  unfold hasId at hhas
  omega

theorem hasId_creditUser (us : List User) (uid : Nat) (amt : Int) (v : Nat) :
    hasId (creditUser us uid amt) v ↔ hasId us v := by
  unfold hasId
  rw [occ_creditUser]

theorem hasId_setCoins (us : List User) (uid : Nat) (w : Int) (v : Nat) :
    hasId (setCoins us uid w) v ↔ hasId us v := by
  unfold hasId
  rw [occ_setCoins]

theorem recon_credit_pair (us : List User) (ts : List Txn) (uid : Nat) (amt : Int) (v : Nat)
    (hok : UsersOK us) (hhas : hasId us uid) (t : Txn)
    (ht1 : t.user_id = uid) (ht2 : t.amount = amt) :
    balSum (creditUser us uid amt) v - txSum (ts ++ [t]) v = balSum us v - txSum ts v := by
  rw [txSum_append]
  by_cases hv : v = uid
  · subst hv
    rw [balSum_creditUser_self, occ_eq_one us v hok hhas]
    simp [txSum, ht1, ht2]
  · rw [balSum_creditUser_other _ _ _ _ hv]
    have hne : ¬ (t.user_id = v) := by rw [ht1]; omega
    simp [txSum, hne]

theorem recon_join (cfg : SplitCfg) (db : Db) (uid v : Nat) (hok : UsersOK db.users) :
    recon (applyOp cfg db (.join uid)) v = recon db v := by
  unfold applyOp
  cases hj : joinWheel cfg db uid with
  | error e => simp only [hj]
  | ok db2 =>
    simp only [hj]
    obtain ⟨-, u0, hfind, -, rfl⟩ := joinWheel_ok_spec cfg db uid db2 hj
    obtain ⟨hbal, hocc⟩ := balSum_find db.users uid u0 hok hfind
    unfold recon
    simp only
    rw [txSum_append]
    by_cases hv : v = uid
    · subst hv
      rw [balSum_setCoins_self, hocc, hbal]
      simp [txSum, joinTxn]
      ring
    · rw [balSum_setCoins_other _ _ _ _ hv]
      have hne : ¬ (joinTxn db uid).user_id = v := by
        show ¬ uid = v
        omega
      simp [txSum, hne]

theorem refund_fold_wheel (wid : Nat) (reason : String) (ps : List Participant) :
    ∀ d : Db, (ps.foldl (refundStep wid reason) d).wheel = d.wheel := by
  induction ps with
  | nil => intro d; rfl
  | cons p ps ih => intro d; rw [List.foldl_cons, ih]; rfl

theorem refund_fold_participants (wid : Nat) (reason : String) (ps : List Participant) :
    ∀ d : Db, (ps.foldl (refundStep wid reason) d).participants = d.participants := by
  induction ps with
  | nil => intro d; rfl
  | cons p ps ih => intro d; rw [List.foldl_cons, ih]; rfl

theorem refund_fold_occ (wid : Nat) (reason : String) (ps : List Participant) :
    ∀ (d : Db) (w : Nat), occ (ps.foldl (refundStep wid reason) d).users w = occ d.users w := by
  induction ps with
  | nil => intro d w; rfl
  | cons p ps ih =>
    intro d w
    rw [List.foldl_cons, ih]
    exact occ_creditUser d.users p.user_id _ w

theorem refund_fold_usersOK (wid : Nat) (reason : String) (ps : List Participant) :
    ∀ d : Db, UsersOK d.users → UsersOK (ps.foldl (refundStep wid reason) d).users := by
  induction ps with
  | nil => intro d h; exact h
  | cons p ps ih =>
    intro d h
    rw [List.foldl_cons]
    exact ih _ (UsersOK_creditUser d.users p.user_id _ h)

theorem refund_fold_transactions (wid : Nat) (reason : String) (ps : List Participant) :
    ∀ d : Db, (ps.foldl (refundStep wid reason) d).transactions =
      d.transactions ++ ps.map (fun p => refundTxn wid d.wheel.entry_fee reason p.user_id) := by
  induction ps with
  | nil => intro d; simp
  | cons p ps ih =>
    intro d
    rw [List.foldl_cons, ih]
    show (d.transactions ++ [refundTxn wid d.wheel.entry_fee reason p.user_id]) ++ _ = _
    rw [List.append_assoc]
    rfl

theorem refund_fold_recon (wid : Nat) (reason : String) (ps : List Participant) :
    ∀ (d : Db) (v : Nat), UsersOK d.users → (∀ p ∈ ps, hasId d.users p.user_id) →
      recon (ps.foldl (refundStep wid reason) d) v = recon d v := by
  induction ps with
  | nil => intro d v hok hps; rfl
  | cons p ps ih =>
    intro d v hok hps
    rw [List.foldl_cons]
    have hstep : recon (refundStep wid reason d p) v = recon d v := by
      unfold recon
      exact recon_credit_pair d.users d.transactions p.user_id _ v hok
        (hps p (by simp)) _ rfl rfl
    rw [ih (refundStep wid reason d p) v
      (UsersOK_creditUser d.users p.user_id _ hok)
      (fun q hq => (hasId_creditUser d.users p.user_id _ q.user_id).mpr
        (hps q (by simp [hq]))), hstep]

theorem recon_refund (db : Db) (reason : String) (v : Nat) (hok : UsersOK db.users)
    (hps : ∀ p ∈ db.participants, hasId db.users p.user_id) :
    recon (refundWheel db reason) v = recon db v := by
  unfold refundWheel
  exact refund_fold_recon db.wheel.id reason db.participants db v hok hps

theorem recon_finalize (db : Db) (w v : Nat) (hok : UsersOK db.users)
    (hw : hasId db.users w) (ho : hasId db.users db.wheel.owner_id) :
    recon (finalizeWinner db w) v = recon db v := by
  unfold finalizeWinner recon
  dsimp only
  by_cases h1 : 0 < db.wheel.winner_pool
  · rw [if_pos h1]
    by_cases h2 : 0 < db.wheel.admin_pool
    · rw [if_pos h2]
      dsimp only
      rw [recon_credit_pair (creditUser db.users w db.wheel.winner_pool)
        (db.transactions ++ [(Txn.mk w db.wheel.winner_pool "credit" db.wheel.id none
          (some "winner"))])
        db.wheel.owner_id db.wheel.admin_pool v
        (UsersOK_creditUser _ _ _ hok) ((hasId_creditUser _ _ _ _).mpr ho)
        (Txn.mk db.wheel.owner_id db.wheel.admin_pool "credit" db.wheel.id none
          (some "admin")) rfl rfl]
      exact recon_credit_pair db.users db.transactions w db.wheel.winner_pool v hok hw
        (Txn.mk w db.wheel.winner_pool "credit" db.wheel.id none (some "winner")) rfl rfl
    · rw [if_neg h2]
      dsimp only
      exact recon_credit_pair _ _ _ _ v hok hw _ rfl rfl
  · rw [if_neg h1]
    by_cases h2 : 0 < db.wheel.admin_pool
    · rw [if_pos h2]
      dsimp only
      exact recon_credit_pair _ _ _ _ v hok ho _ rfl rfl
    · rw [if_neg h2]

theorem occ_finalize (db : Db) (w v : Nat) :
    occ (finalizeWinner db w).users v = occ db.users v := by
  unfold finalizeWinner
  dsimp only
  by_cases h1 : 0 < db.wheel.winner_pool
  · rw [if_pos h1]
    by_cases h2 : 0 < db.wheel.admin_pool
    · rw [if_pos h2]
      dsimp only
      rw [occ_creditUser, occ_creditUser]
    · rw [if_neg h2]
      dsimp only
      rw [occ_creditUser]
  · rw [if_neg h1]
    by_cases h2 : 0 < db.wheel.admin_pool
    · rw [if_pos h2]
      dsimp only
      rw [occ_creditUser]
    · rw [if_neg h2]

theorem usersOK_finalize (db : Db) (w : Nat) (hok : UsersOK db.users) :
    UsersOK (finalizeWinner db w).users := by
  unfold finalizeWinner
  dsimp only
  by_cases h1 : 0 < db.wheel.winner_pool
  · rw [if_pos h1]
    by_cases h2 : 0 < db.wheel.admin_pool
    · rw [if_pos h2]
      exact UsersOK_creditUser _ _ _ (UsersOK_creditUser _ _ _ hok)
    · rw [if_neg h2]
      exact UsersOK_creditUser _ _ _ hok
  · rw [if_neg h1]
    by_cases h2 : 0 < db.wheel.admin_pool
    · rw [if_pos h2]
      exact UsersOK_creditUser _ _ _ hok
    · rw [if_neg h2]
      exact hok

theorem finalize_participants (db : Db) (w : Nat) :
    (finalizeWinner db w).participants = db.participants := by
  unfold finalizeWinner
  dsimp only
  by_cases h1 : 0 < db.wheel.winner_pool <;> by_cases h2 : 0 < db.wheel.admin_pool <;>
    simp [h1, h2]

theorem finalize_owner (db : Db) (w : Nat) :
    (finalizeWinner db w).wheel.owner_id = db.wheel.owner_id := by
  unfold finalizeWinner
  dsimp only
  by_cases h1 : 0 < db.wheel.winner_pool <;> by_cases h2 : 0 < db.wheel.admin_pool <;>
    simp [h1, h2]

theorem occ_applyOp (cfg : SplitCfg) (db : Db) (op : LedgerOp) (v : Nat) :
    occ (applyOp cfg db op).users v = occ db.users v := by
  cases op with
  | join uid =>
    unfold applyOp
    cases hj : joinWheel cfg db uid with
    | error e => simp only [hj]
    | ok db2 =>
      simp only [hj]
      obtain ⟨-, u0, -, -, rfl⟩ := joinWheel_ok_spec cfg db uid db2 hj
      exact occ_setCoins db.users uid _ v
  | refund reason =>
    show occ (db.participants.foldl (refundStep db.wheel.id reason) db).users v = _
    exact refund_fold_occ db.wheel.id reason db.participants db v
  | finalize wv => exact occ_finalize db wv v

theorem hasId_applyOp (cfg : SplitCfg) (db : Db) (op : LedgerOp) (v : Nat) :
    hasId (applyOp cfg db op).users v ↔ hasId db.users v := by
  unfold hasId
  rw [occ_applyOp]

theorem WF_applyOp (cfg : SplitCfg) (db : Db) (op : LedgerOp) (hwf : WF db) :
    WF (applyOp cfg db op) := by
  obtain ⟨hok, hps, how⟩ := hwf
  cases op with
  | join uid =>
    unfold applyOp
    cases hj : joinWheel cfg db uid with
    | error e =>
      simp only [hj]
      exact ⟨hok, hps, how⟩
    | ok db2 =>
      simp only [hj]
      obtain ⟨-, u0, hfind, -, rfl⟩ := joinWheel_ok_spec cfg db uid db2 hj
      refine ⟨UsersOK_setCoins _ _ _ hok, ?_, (hasId_setCoins _ _ _ _).mpr how⟩
      intro p hp
      rw [hasId_setCoins]
      rcases List.mem_append.mp hp with h | h
      · exact hps p h
      · have hpj : p = joinRow db uid := by simpa using h
        rw [hpj]
        exact hasId_of_find db.users uid u0 hfind
  | refund reason =>
    unfold applyOp refundWheel
    refine ⟨refund_fold_usersOK _ _ _ db hok, ?_, ?_⟩
    · intro p hp
      have hp2 : p ∈ db.participants := by
        have := refund_fold_participants db.wheel.id reason db.participants db
        exact this ▸ hp
      show hasId (db.participants.foldl (refundStep db.wheel.id reason) db).users p.user_id
      unfold hasId
      rw [refund_fold_occ]
      exact hps p hp2
    · show hasId (db.participants.foldl (refundStep db.wheel.id reason) db).users
        (db.participants.foldl (refundStep db.wheel.id reason) db).wheel.owner_id
      unfold hasId
      rw [refund_fold_occ, refund_fold_wheel]
      exact how
  | finalize wv =>
    unfold applyOp
    refine ⟨usersOK_finalize db wv hok, ?_, ?_⟩
    · intro p hp
      rw [finalize_participants] at hp
      unfold hasId
      rw [occ_finalize]
      exact hps p hp
    · unfold hasId
      rw [occ_finalize, finalize_owner]
      exact how

theorem recon_applyOp (cfg : SplitCfg) (db : Db) (op : LedgerOp) (v : Nat) (hwf : WF db)
    (hfin : ∀ w, op = .finalize w → hasId db.users w) :
    recon (applyOp cfg db op) v = recon db v := by
  obtain ⟨hok, hps, how⟩ := hwf
  cases op with
  | join uid => exact recon_join cfg db uid v hok
  | refund reason =>
    show recon (refundWheel db reason) v = _
    exact recon_refund db reason v hok hps
  | finalize wv => exact recon_finalize db wv v hok (hfin wv rfl) how

theorem recon_runOps (cfg : SplitCfg) (ops : List LedgerOp) : ∀ (db : Db) (v : Nat), WF db →
    (∀ w, LedgerOp.finalize w ∈ ops → hasId db.users w) →
    recon (runOps cfg db ops) v = recon db v := by
  induction ops with
  | nil => intro db v hwf hfin; rfl
  | cons op ops ih =>
    intro db v hwf hfin
    show recon (runOps cfg (applyOp cfg db op) ops) v = _
    rw [ih (applyOp cfg db op) v (WF_applyOp cfg db op hwf)
      (fun w hw => (hasId_applyOp cfg db op w).mpr (hfin w (List.mem_cons_of_mem op hw)))]
    exact recon_applyOp cfg db op v hwf
      (fun w hw => hfin w (by rw [hw]; exact List.mem_cons_self _ _))

/-- Claim C4, amended: for every user, after any sequence of the SQL
backend's balance-mutating operations (join, refund/abort,
finalize/payout) on a well-formed database, the change of the user's coin
balance equals the change of the sum of the ledger transaction amounts
recorded for that user — every such operation appends a matching
transaction for each balance change.  (The weighted-draw payout of the
prisma game service violates the claim as stated; see the
counterexample.) -/
theorem C4_sql_ledger_reconciliation (cfg : SplitCfg) (db : Db) (ops : List LedgerOp)
    (uid : Nat) (hwf : WF db)
    (hfin : ∀ w, LedgerOp.finalize w ∈ ops → hasId db.users w) :
    balSum (runOps cfg db ops).users uid - balSum db.users uid =
      txSum (runOps cfg db ops).transactions uid - txSum db.transactions uid := by
  have h := recon_runOps cfg ops db uid hwf hfin
  unfold recon at h
  omega

theorem C4_sql_ledger_reconciliation_witness :
    balSum (runOps defaultSplit dbInit3 [.join 1, .join 2, .join 3, .finalize 3]).users 3 -
        balSum dbInit3.users 3 =
      txSum (runOps defaultSplit dbInit3 [.join 1, .join 2, .join 3, .finalize 3]).transactions 3
        - txSum dbInit3.transactions 3 :=
  C4_sql_ledger_reconciliation defaultSplit dbInit3 [.join 1, .join 2, .join 3, .finalize 3] 3
    (by
      refine ⟨by unfold UsersOK; decide, ?_, by unfold hasId; decide⟩
      intro p hp
      simp [dbInit3] at hp)
    (by
      intro w hw
      simp only [List.mem_cons, List.not_mem_nil, or_false] at hw
      have hw3 : w = 3 := by
        rcases hw with h | h | h | h
        · exact absurd h (by simp)
        · exact absurd h (by simp)
        · exact absurd h (by simp)
        · exact LedgerOp.finalize.inj h
      rw [hw3]
      unfold hasId
      decide)

/-- Claim C4 as stated fails on the code: the weighted-draw payout of the
prisma game service (`startWheel`) increments the winner's balance without
appending any ledger transaction.  On the concrete state `pStC4` (one paid
join by user 7 with balance 0, fee 100), the finished run leaves user 7
with balance 100 while the transaction table is unchanged and empty, so the
balance change 100 does not equal the recorded transaction sum 0. -/
theorem C4_payout_without_transaction :
    pStC4r.users.map (fun u => u.balance) = [100] ∧
    pStC4.users.map (fun u => u.balance) = [0] ∧
    pStC4r.transactions = pStC4.transactions ∧
    pStC4.transactions = [] ∧
    pStC4r.wheel.status = "finished" :=
  ⟨by decide, by decide, by decide, by decide, by decide⟩

theorem refund_fold_balSum (wid : Nat) (reason : String) (ps : List Participant) :
    ∀ (d : Db) (uid : Nat),
      balSum (ps.foldl (refundStep wid reason) d).users uid =
        balSum d.users uid +
          (ps.countP (fun q => q.user_id == uid) : Int) * (occ d.users uid : Int) *
            (d.wheel.entry_fee : Int) := by
  induction ps with
  | nil => intro d uid; simp
  | cons p ps ih =>
    intro d uid
    rw [List.foldl_cons, ih (refundStep wid reason d p) uid]
    have h1 : (refundStep wid reason d p).wheel.entry_fee = d.wheel.entry_fee := rfl
    have h2 : occ (refundStep wid reason d p).users uid = occ d.users uid :=
      occ_creditUser d.users p.user_id _ uid
    rw [h1, h2, List.countP_cons]
    by_cases hp : p.user_id = uid
    · have h3 : balSum (refundStep wid reason d p).users uid =
          balSum d.users uid + (occ d.users uid : Int) * (d.wheel.entry_fee : Int) := by
        show balSum (creditUser d.users p.user_id (d.wheel.entry_fee : Int)) uid = _
        rw [hp, balSum_creditUser_self]
      rw [h3]
      simp [hp]
      push_cast
      ring
    · have h3 : balSum (refundStep wid reason d p).users uid = balSum d.users uid := by
        show balSum (creditUser d.users p.user_id (d.wheel.entry_fee : Int)) uid = _
        exact balSum_creditUser_other _ _ _ _ (by omega)
      rw [h3]
      simp [hp]

theorem countP_user_eq_one (ps : List Participant) (p : Participant)
    (hpd : ps.Pairwise (fun a b => a.user_id ≠ b.user_id)) (hmem : p ∈ ps) :
    ps.countP (fun q => q.user_id == p.user_id) = 1 := by
  induction ps with
  | nil => simp at hmem
  | cons a tl ih =>
    obtain ⟨h1, h2⟩ := List.pairwise_cons.mp hpd
    rcases List.mem_cons.mp hmem with rfl | hm
    · rw [List.countP_cons]
      have hz : tl.countP (fun q => q.user_id == p.user_id) = 0 := by
        rw [List.countP_eq_zero]
        intro q hq
        have := h1 q hq
        simp
        omega
      simp [hz]
    · rw [List.countP_cons]
      have hne : ¬ ((a.user_id == p.user_id) = true) := by
        have := h1 p hm
        simp
        omega
      simp [ih h2 hm, hne]

/-- Claim C8: aborting a wheel credits every participant back exactly the
entry fee — independently of the pool amounts, which are left untouched and
never paid out — appends for each participant a credit transaction tagged
with the abort reason, and sets the wheel status to `aborted`. -/
theorem C8_abort_refunds_entry_fee (db : Db) (reason : String)
    (hok : UsersOK db.users)
    (hps : ∀ p ∈ db.participants, hasId db.users p.user_id)
    (hpd : db.participants.Pairwise (fun a b => a.user_id ≠ b.user_id)) :
    (∀ p ∈ db.participants,
      balSum (refundWheel db reason).users p.user_id =
        balSum db.users p.user_id + (db.wheel.entry_fee : Int)) ∧
    (refundWheel db reason).transactions =
      db.transactions ++
        db.participants.map (fun p =>
          refundTxn db.wheel.id db.wheel.entry_fee reason p.user_id) ∧
    (refundWheel db reason).wheel.status = WStatus.aborted ∧
    (refundWheel db reason).wheel.winner_pool = db.wheel.winner_pool ∧
    (refundWheel db reason).wheel.admin_pool = db.wheel.admin_pool ∧
    (refundWheel db reason).wheel.app_pool = db.wheel.app_pool ∧
    (refundWheel db reason).wheel.entry_fee = db.wheel.entry_fee := by
  refine ⟨?_, ?_, ?_, ?_, ?_, ?_, ?_⟩
  · intro p hp
    show balSum (db.participants.foldl (refundStep db.wheel.id reason) db).users p.user_id = _
    rw [refund_fold_balSum, countP_user_eq_one db.participants p hpd hp,
      occ_eq_one db.users p.user_id hok (hps p hp)]
    push_cast
    ring
  · show (db.participants.foldl (refundStep db.wheel.id reason) db).transactions = _
    exact refund_fold_transactions _ _ _ db
  · rfl
  · show (db.participants.foldl (refundStep db.wheel.id reason) db).wheel.winner_pool = _
    rw [refund_fold_wheel]
  · show (db.participants.foldl (refundStep db.wheel.id reason) db).wheel.admin_pool = _
    rw [refund_fold_wheel]
  · show (db.participants.foldl (refundStep db.wheel.id reason) db).wheel.app_pool = _
    rw [refund_fold_wheel]
  · show (db.participants.foldl (refundStep db.wheel.id reason) db).wheel.entry_fee = _
    rw [refund_fold_wheel]

theorem C8_abort_refunds_entry_fee_witness :
    (balSum (refundWheel dbJoined3 "not_enough_participants").users 1 =
      balSum dbJoined3.users 1 + (dbJoined3.wheel.entry_fee : Int)) ∧
    (refundWheel dbJoined3 "not_enough_participants").wheel.status = WStatus.aborted ∧
    (dbJoined3.wheel.entry_fee : Int) = 100 ∧ dbJoined3.participants.length = 3 :=
  have h := C8_abort_refunds_entry_fee dbJoined3 "not_enough_participants"
    (by unfold UsersOK; decide)
    (by intro p hp; unfold hasId; revert p hp; decide)
    (by decide)
  ⟨h.1 { id := 0, wheel_id := 5, user_id := 1, eliminated := false, eliminated_order := none }
      (by decide),
    h.2.2.1, by decide, by decide⟩
